import Mathlib

/-!
# The lint rule `vue-no-unused-properties`

A shallow embedding of
`packages/eslint-plugin-kolibri/lib/rules/vue-no-unused-properties.js`.

The rule keeps three variables in the closure of `create` (`hasTemplate`,
`unusedProperties`, `thisExpressionsVariablesNames`) and registers callbacks that the
linter fires while it walks the script and the template of one file.  Here the closure
is an explicit `State`, every callback is a function from a state to a new state and the
diagnostics it passes to `context.report`, and a traversal is a list of `Event`s.

What the callbacks receive from code outside the rule file is carried by the events:
the properties yielded by `iterateProperties`, the list returned by
`utils.getWatchersNames`, the list returned by `utils.getReferencesNames`, the result of
`utils.checkVueEslintParser` and the truthiness of `node.templateBody`.  Only the
diagnostics reported by the rule file itself are modelled.
-/

namespace VueNoUnusedProperties

/-! ## Data model -/

/-- The three groups handed to `iterateProperties`: `'props'`, `'data'`, `'computed'`. -/
inductive GroupName where
  | props
  | data
  | computed
deriving DecidableEq, Repr

/-- The constant `GROUP_PROPERTY = 'props'`. -/
def GROUP_PROPERTY : GroupName := GroupName.props

/-- The constant `GROUP_DATA = 'data'`. -/
def GROUP_DATA : GroupName := GroupName.data

/-- The constant `GROUP_COMPUTED_PROPERTY = 'computed'`. -/
def GROUP_COMPUTED_PROPERTY : GroupName := GroupName.computed

/-- The table `PROPERTY_LABEL`, keyed by group. -/
def PROPERTY_LABEL : GroupName → String
  | GroupName.props => "property"
  | GroupName.data => "data"
  | GroupName.computed => "computed property"

/-- One record yielded by `iterateProperties`: `{ name, groupName, node }`.
The syntax node is identified by a number. -/
structure Property where
  name : String
  groupName : GroupName
  node : Nat
deriving DecidableEq, Repr

/-- The object passed to `context.report`: `{ node, message }`. -/
structure Diagnostic where
  node : Nat
  message : String
deriving DecidableEq, Repr

/-- The template literal
`Unused ${PROPERTY_LABEL[property.groupName]} found: "${property.name}"`. -/
def unusedMessage (property : Property) : String :=
  "Unused " ++ PROPERTY_LABEL property.groupName ++ " found: \"" ++ property.name ++ "\""

/-- The diagnostic that `reportUnusedProperties` builds for one property. -/
def diagnosticOf (property : Property) : Diagnostic :=
  { node := property.node, message := unusedMessage property }

/-- The function `reportUnusedProperties(context, properties)`; the result is the list of
objects passed to `context.report`, in call order.  `none` stands for a falsy
`properties` argument. -/
def reportUnusedProperties (properties : Option (List Property)) : List Diagnostic :=
  match properties with
  | none => []
  | some ps => if ps.length = 0 then [] else ps.map diagnosticOf

/-! ## Array helpers -/

/-- The method `Array.prototype.includes` on an array of strings. -/
def includes (names : List String) (name : String) : Bool :=
  names.contains name

/-- The lodash function `remove(array, predicate)`: one left-to-right pass that takes out
of `array` every element for which `predicate` is truthy.  The first component is the
array after the call, the second the returned array of removed elements. -/
def remove {α : Type} (array : List α) (predicate : α → Bool) : List α × List α :=
  match array with
  | [] => ([], [])
  | value :: rest =>
    let r := remove rest predicate
    if predicate value then (r.1, value :: r.2) else (value :: r.1, r.2)

/-! ## The closure of `create` and its callbacks -/

/-- The variables declared at the top of `create`.  `hasTemplate` is `none` while it is
still `undefined`. -/
structure State where
  hasTemplate : Option Bool
  unusedProperties : List Property
  thisExpressionsVariablesNames : List String
deriving DecidableEq, Repr

/-- The state right after `create` ran: `let hasTemplate; let unusedProperties = [];
let thisExpressionsVariablesNames = [];`. -/
def State.init : State :=
  { hasTemplate := none, unusedProperties := [], thisExpressionsVariablesNames := [] }

/-- Truthiness of `hasTemplate`, as tested by `!hasTemplate`. -/
def truthy : Option Bool → Bool
  | some true => true
  | _ => false

/-- The handler `Program(node)`: returns early when `utils.checkVueEslintParser(context)`
is falsy, otherwise stores `Boolean(node.templateBody)`. -/
def Program (s : State) (checkVueEslintParser templateBody : Bool) :
    State × List Diagnostic :=
  if !checkVueEslintParser then (s, [])
  else ({ s with hasTemplate := some templateBody }, [])

/-- The callback given to `utils.executeOnThisExpressionProperty`:
`thisExpressionsVariablesNames.push(property.name)`. -/
def onThisExpressionProperty (s : State) (name : String) : State × List Diagnostic :=
  ({ s with thisExpressionsVariablesNames := s.thisExpressionsVariablesNames ++ [name] }, [])

/-- The callback given to `executeOnVue`.  `properties` is
`Array.from(iterateProperties(obj, groups))` and `watchersNames` is
`utils.getWatchersNames(obj)`. -/
def onVue (s : State) (properties : List Property) (watchersNames : List String) :
    State × List Diagnostic :=
  let unusedProperties := (remove properties (fun property =>
    includes s.thisExpressionsVariablesNames property.name ||
      includes watchersNames property.name)).1
  ({ s with unusedProperties := unusedProperties },
    if !truthy s.hasTemplate && decide (unusedProperties.length ≠ 0) then
      reportUnusedProperties (some unusedProperties)
    else [])

/-- The handler `'VExpressionContainer[expression!=null][references]'(node)`.
`referencesNames` is `utils.getReferencesNames(node.references)`. -/
def onVExpressionContainer (s : State) (referencesNames : List String) :
    State × List Diagnostic :=
  ({ s with unusedProperties :=
      (remove s.unusedProperties (fun property => includes referencesNames property.name)).1 },
    [])

/-- The callback given to `utils.executeOnRootTemplateEnd`. -/
def onRootTemplateEnd (s : State) : State × List Diagnostic :=
  (s, if s.unusedProperties.length ≠ 0 then reportUnusedProperties (some s.unusedProperties)
    else [])

/-- One callback invocation, with the values it receives from outside the rule file. -/
inductive Event where
  | program (checkVueEslintParser templateBody : Bool)
  | thisExpressionProperty (name : String)
  | vue (properties : List Property) (watchersNames : List String)
  | vExpressionContainer (referencesNames : List String)
  | rootTemplateEnd
deriving DecidableEq, Repr

/-- Dispatch of one event to its callback. -/
def step (s : State) : Event → State × List Diagnostic
  | Event.program ok templateBody => Program s ok templateBody
  | Event.thisExpressionProperty name => onThisExpressionProperty s name
  | Event.vue properties watchersNames => onVue s properties watchersNames
  | Event.vExpressionContainer referencesNames => onVExpressionContainer s referencesNames
  | Event.rootTemplateEnd => onRootTemplateEnd s

/-- A traversal: the callbacks fire in list order; the diagnostics are collected in the
order in which they are reported. -/
def run (s : State) : List Event → State × List Diagnostic
  | [] => (s, [])
  | e :: es =>
    let r := step s e
    let r2 := run r.1 es
    (r2.1, r.2 ++ r2.2)

/-- Modelled from the spec: `utils.getWatchersNames`, which lives in `lib/utils` and is
not part of the rule file.  The spec gives its output as the keys of the watch
declaration, and the empty set when the component has no watch block. -/
def getWatchersNames (watch : Option (List String)) : List String :=
  match watch with
  | none => []
  | some keys => keys

/-! ## Specification-side vocabulary -/

/-- The removal step of both phases, as a function of the names:
`remove(unused, property => names.includes(property.name))`. -/
def removeNames (unused : List Property) (names : List String) : List Property :=
  (remove unused (fun property => includes names property.name)).1

/-- The event is the component callback. -/
def Event.isVue : Event → Bool
  | Event.vue _ _ => true
  | _ => false

/-- The event is the template-root-end callback. -/
def Event.isRootTemplateEnd : Event → Bool
  | Event.rootTemplateEnd => true
  | _ => false

/-- The names a traversal shows as used: the names pushed by the self-reference
callbacks, the watcher names of the component callbacks and the reference names of the
template fragments. -/
def observedNames : List Event → List String
  | [] => []
  | Event.thisExpressionProperty name :: es => name :: observedNames es
  | Event.vue _ watchersNames :: es => watchersNames ++ observedNames es
  | Event.vExpressionContainer referencesNames :: es => referencesNames ++ observedNames es
  | _ :: es => observedNames es

/-- The members declared in a traversal: the properties of its component callbacks. -/
def declaredProperties : List Event → List Property
  | [] => []
  | Event.vue properties _ :: es => properties ++ declaredProperties es
  | _ :: es => declaredProperties es

/-- The traversal of one component in the order `defineTemplateBodyVisitor` gives the
callbacks: `Program` first, the self-reference accesses of the script, the component
callback, and, only when the file has a template, the template fragments followed by
template-root-end. -/
def analysisRun (templateBody : Bool) (S : List String) (P : List Property)
    (W : List String) (Rs : List (List String)) : List Event :=
  Event.program true templateBody :: S.map Event.thisExpressionProperty ++ [Event.vue P W] ++
    (if templateBody then Rs.map Event.vExpressionContainer ++ [Event.rootTemplateEnd]
     else [])

/-- A member `a` declared in `props`. -/
def memberA : Property := { name := "a", groupName := GROUP_PROPERTY, node := 1 }

/-- A member `b` declared in `data`. -/
def memberB : Property := { name := "b", groupName := GROUP_DATA, node := 2 }

/-- A member `c` declared in `computed`. -/
def memberC : Property := { name := "c", groupName := GROUP_COMPUTED_PROPERTY, node := 3 }

/-- A traversal in which `this.a` is visited after the component callback: a file with
a template, one declared member `a`, no watcher, no template fragment. -/
def lateSelfReferenceRun : List Event :=
  [Event.program true true, Event.vue [memberA] [], Event.thisExpressionProperty "a",
    Event.rootTemplateEnd]

/-- The closure after `Program` saw a template and before anything else fired. -/
def templateState : State :=
  { hasTemplate := some true, unusedProperties := [], thisExpressionsVariablesNames := [] }

/-- A second member called `a`, declared in `data`. -/
def memberA2 : Property := { name := "a", groupName := GROUP_DATA, node := 4 }

/-- The event is a self-reference callback. -/
def Event.isThisExpressionProperty : Event → Bool
  | Event.thisExpressionProperty _ => true
  | _ => false

/-- The event is a template-fragment callback. -/
def Event.isVExpressionContainer : Event → Bool
  | Event.vExpressionContainer _ => true
  | _ => false

/-- The reference-name lists of the template fragments of a traversal, in order. -/
def fragmentReferences : List Event → List (List String)
  | [] => []
  | Event.vExpressionContainer referencesNames :: es => referencesNames :: fragmentReferences es
  | _ :: es => fragmentReferences es

/-- What may fire between the component callback and the end of the traversal of one
component: further self-reference accesses, and template fragments when the file has a
template. -/
def lateEvent (templateBody : Bool) (e : Event) : Bool :=
  e.isThisExpressionProperty || (templateBody && e.isVExpressionContainer)

/-- The traversal of one component, self-reference accesses after the component callback
included: `Program`, the self-reference accesses `S` visited before the component
callback, the component callback, the later callbacks `post`, and template-root-end
when the file has a template. -/
def componentRun (templateBody : Bool) (S : List String) (P : List Property)
    (W : List String) (post : List Event) : List Event :=
  Event.program true templateBody :: S.map Event.thisExpressionProperty ++ [Event.vue P W] ++
    post ++ (if templateBody then [Event.rootTemplateEnd] else [])

/-- A traversal of one component with a template: `this.b` before the component
callback, members `a` and `b`, a fragment that references `x`, then `this.a`. -/
def lateAccessRun : List Event :=
  componentRun true ["b"] [memberA, memberB] []
    [Event.vExpressionContainer ["x"], Event.thisExpressionProperty "a"]

end VueNoUnusedProperties

/-!
# The store actions of the CSV user import

A shallow embedding of
`kolibri/plugins/facility/assets/src/modules/importCSV/actions.js`.

The actions receive the store and use it in two ways: they read getters and they call
`store.commit`.  The getters and the mutations live in other files, so the store is a
state of any type together with its getters and its mutation function, and every commit
is also appended to a log.  The call `TaskResource.import_users_from_csv(params)` and
its promise are represented by the value an action returns.
-/

namespace ImportCSV

/-- The constants `TaskStatuses.COMPLETED` and `TaskStatuses.FAILED` of `../../constants`,
a file that is not among the sources: they are parameters of the functions that use
them. -/
structure TaskStatuses where
  COMPLETED : String
  FAILED : String
deriving DecidableEq, Repr

/-- A task record, as far as the actions read it: `id`, `type` and `status`. -/
structure Task where
  id : String
  type : String
  status : String
deriving DecidableEq, Repr

/-- The second argument of `store.commit`: a task, or the `deleteUsers` flag. -/
inductive Payload where
  | task (t : Task)
  | flag (b : Bool)
deriving DecidableEq, Repr

/-- One call `store.commit(mutation, payload)`. -/
structure Commit where
  mutation : String
  payload : Payload
deriving DecidableEq, Repr

/-- Truthiness of the `taskId` argument: `none` is `undefined` or `null`, and the empty
string is falsy as well. -/
def truthyId : Option String → Bool
  | none => false
  | some id => id != ""

/-- The function `checkTaskStatus(store, newTasks, taskType, taskId, commitStart,
commitFinish)`; the result is the list of commits it makes on the store, in order.  The
guards `task && task.status === ...` are the `some` branch of the match on the result of
`find`, and `running[0]` is the head of the filtered list. -/
def checkTaskStatus (statuses : TaskStatuses) (newTasks : List Task) (taskType : String)
    (taskId : Option String) (commitStart commitFinish : String) : List Commit :=
  if truthyId taskId then
    match newTasks.find? (fun task => some task.id == taskId) with
    | some task =>
      if task.status == statuses.COMPLETED then
        [{ mutation := commitFinish, payload := Payload.task task }]
      else if task.status == statuses.FAILED then
        [{ mutation := "SET_FAILED", payload := Payload.task task }]
      else []
    | none => []
  else
    let running := newTasks.filter (fun task =>
      task.type == taskType && task.status != statuses.COMPLETED &&
        task.status != statuses.FAILED)
    if running.length > 0 then
      match running with
      | first :: _ => [{ mutation := commitStart, payload := Payload.task first }]
      | [] => []
    else []

/-- The object `params` sent to `TaskResource.import_users_from_csv`.  A key that is not
set is `none`. -/
structure Params where
  csvfile : String
  delete : Option String
  dryrun : Option String
deriving DecidableEq, Repr

/-- The getters the actions read.  `importingOrValidating` and `deleteUsers` are the
truthiness of the getter values. -/
structure Getters where
  importingOrValidating : Bool
  filename : String
  deleteUsers : Bool
  taskId : Option String
deriving DecidableEq, Repr

/-- The store as the actions see it: a state, the getters computed from it, the effect
of a mutation on it, and the log of the commits made so far. -/
structure Store (σ : Type) where
  state : σ
  getters : σ → Getters
  mutate : σ → Commit → σ
  committed : List Commit

/-- The call `store.commit(mutation, payload)`. -/
def Store.commit {σ : Type} (store : Store σ) (c : Commit) : Store σ :=
  { store with state := store.mutate store.state c, committed := store.committed ++ [c] }

/-- The value of `store.getters` at this moment. -/
def Store.currentGetters {σ : Type} (store : Store σ) : Getters :=
  store.getters store.state

/-- What `startImportUsers` returns: `undefined`, or the promise of
`TaskResource.import_users_from_csv(params)` chained with the callback that commits
`commitStart` with `task.entity` and resolves to `task.entity.id`. -/
inductive ImportResult where
  | undefined
  | promise (params : Params) (commitStart : String)
deriving DecidableEq, Repr

/-- The first three statements of `startImportUsers`: the object `params`. -/
def importParams (file : String) (deleting validate : Bool) : Params :=
  let params : Params := { csvfile := file, delete := none, dryrun := none }
  let params := if deleting then { params with delete := some "true" } else params
  let params := if validate then { params with dryrun := some "true" } else params
  params

/-- The function `startImportUsers(store, file, deleting, validate, commitStart)`: the
store after the call and the returned value. -/
def startImportUsers {σ : Type} (store : Store σ) (file : String) (deleting validate : Bool)
    (commitStart : String) : Store σ × ImportResult :=
  let params := importParams file deleting validate
  if !store.currentGetters.importingOrValidating then
    (store, ImportResult.promise params commitStart)
  else (store, ImportResult.undefined)

/-- The callback of the promise, `task => { store.commit(commitStart, task.entity);
return task.entity.id; }`. -/
def onImportStarted {σ : Type} (store : Store σ) (commitStart : String) (entity : Task) :
    Store σ × String :=
  (store.commit { mutation := commitStart, payload := Payload.task entity }, entity.id)

/-- The argument of `startValidating`: `{ file, deleteUsers }`. -/
structure ValidatePayload where
  file : String
  deleteUsers : Bool
deriving DecidableEq, Repr

/-- The action `startValidating(store, payload)`. -/
def startValidating {σ : Type} (store : Store σ) (payload : ValidatePayload) :
    Store σ × ImportResult :=
  let store := store.commit
    { mutation := "SET_DELETE_USERS", payload := Payload.flag payload.deleteUsers }
  startImportUsers store payload.file payload.deleteUsers true "START_VALIDATE_USERS"

/-- The action `startSavingUsers(store)`. -/
def startSavingUsers {σ : Type} (store : Store σ) : Store σ × ImportResult :=
  startImportUsers store store.currentGetters.filename store.currentGetters.deleteUsers false
    "START_SAVE_USERS"

/-- The values of the two status constants in the application. -/
def taskStatuses : TaskStatuses := { COMPLETED := "COMPLETED", FAILED := "FAILED" }

/-- A store whose state is the getters record itself; `SET_DELETE_USERS` stores the
flag and no other mutation changes what the getters show. -/
def sampleStore (importing : Bool) : Store Getters :=
  { state := { importingOrValidating := importing, filename := "users.csv",
               deleteUsers := false, taskId := none },
    getters := fun g => g,
    mutate := fun g c =>
      match c.mutation, c.payload with
      | "SET_DELETE_USERS", Payload.flag b => { g with deleteUsers := b }
      | _, _ => g,
    committed := [] }

/-- Three tasks: a finished import, a running export and a running import. -/
def sampleTasks : List Task :=
  [{ id := "t1", type := "IMPORTUSERSFROMCSV", status := "COMPLETED" },
   { id := "t2", type := "EXPORTUSERSTOCSV", status := "RUNNING" },
   { id := "t3", type := "IMPORTUSERSFROMCSV", status := "RUNNING" }]

end ImportCSV

namespace VueNoUnusedProperties

/-! ## Basic facts about the helpers -/

theorem includes_iff (names : List String) (name : String) :
    includes names name = true ↔ name ∈ names := by
  simp [includes]

theorem remove_fst_eq_filter {α : Type} (array : List α) (predicate : α → Bool) :
    (remove array predicate).1 = array.filter (fun x => !predicate x) := by
  induction array with
  | nil => rfl
  | cons value rest ih =>
    by_cases h : predicate value = true
    · simp [remove, h, ih]
    · simp [remove, h, ih]

theorem remove_snd_eq_filter {α : Type} (array : List α) (predicate : α → Bool) :
    (remove array predicate).2 = array.filter predicate := by
  induction array with
  | nil => rfl
  | cons value rest ih =>
    by_cases h : predicate value = true
    · simp [remove, h, ih]
    · simp [remove, h, ih]

theorem removeNames_eq_filter (unused : List Property) (names : List String) :
    removeNames unused names = unused.filter (fun p => decide (p.name ∉ names)) := by
  unfold removeNames
  rw [remove_fst_eq_filter]
  apply List.filter_congr
  intro p _
  by_cases h : p.name ∈ names <;> simp [includes, h]

theorem mem_removeNames (unused : List Property) (names : List String) (p : Property) :
    p ∈ removeNames unused names ↔ p ∈ unused ∧ p.name ∉ names := by
  simp [removeNames_eq_filter, List.mem_filter]

theorem removeNames_sublist (unused : List Property) (names : List String) :
    (removeNames unused names).Sublist unused := by
  rw [removeNames_eq_filter]
  exact List.filter_sublist unused

theorem reportUnusedProperties_some (ps : List Property) :
    reportUnusedProperties (some ps) = ps.map diagnosticOf := by
  cases ps <;> simp [reportUnusedProperties]

theorem unusedMessage_data (p : Property) :
    (unusedMessage p).data =
      "Unused ".data ++ (PROPERTY_LABEL p.groupName).data ++ " found: \"".data ++
        p.name.data ++ "\"".data := by
  simp [unusedMessage, String.data_append]

theorem unusedMessage_inj (p q : Property) (h : unusedMessage p = unusedMessage q) :
    p.groupName = q.groupName ∧ p.name = q.name := by
  have hd := congrArg String.data h
  rw [unusedMessage_data, unusedMessage_data] at hd
  rcases p with ⟨pn, pg, pnode⟩
  rcases q with ⟨qn, qg, qnode⟩
  cases pg <;> cases qg <;> simp [PROPERTY_LABEL] at hd ⊢ <;> exact String.ext hd

theorem diagnosticOf_injective : Function.Injective diagnosticOf := by
  intro p q h
  have hnode : p.node = q.node := congrArg Diagnostic.node h
  have hmsg : unusedMessage p = unusedMessage q := congrArg Diagnostic.message h
  obtain ⟨hg, hn⟩ := unusedMessage_inj p q hmsg
  cases p
  cases q
  simp_all

theorem mem_map_diagnosticOf (p : Property) (l : List Property) :
    diagnosticOf p ∈ l.map diagnosticOf ↔ p ∈ l :=
  List.mem_map_of_injective diagnosticOf_injective

/-! ## The callbacks, one by one -/

theorem onVue_unused (s : State) (P : List Property) (W : List String) :
    (onVue s P W).1.unusedProperties =
      P.filter (fun p => decide (p.name ∉ s.thisExpressionsVariablesNames ∧ p.name ∉ W)) := by
  have h : (onVue s P W).1.unusedProperties = (remove P (fun property =>
      includes s.thisExpressionsVariablesNames property.name ||
        includes W property.name)).1 := rfl
  rw [h, remove_fst_eq_filter]
  apply List.filter_congr
  intro p _
  by_cases h1 : p.name ∈ s.thisExpressionsVariablesNames <;>
    by_cases h2 : p.name ∈ W <;> simp [includes, h1, h2]

theorem onVue_frame (s : State) (P : List Property) (W : List String) :
    (onVue s P W).1.hasTemplate = s.hasTemplate ∧
      (onVue s P W).1.thisExpressionsVariablesNames = s.thisExpressionsVariablesNames := by
  exact ⟨rfl, rfl⟩

theorem onVue_out (s : State) (P : List Property) (W : List String) :
    (onVue s P W).2 =
      if truthy s.hasTemplate then []
      else (onVue s P W).1.unusedProperties.map diagnosticOf := by
  by_cases h : truthy s.hasTemplate = true
  · simp [onVue, h]
  · simp only [Bool.not_eq_true] at h
    simp only [onVue, h, Bool.not_false, Bool.true_and, decide_eq_true_eq]
    split
    · simp [reportUnusedProperties_some]
    · rename_i hlen
      simp only [ne_eq, Decidable.not_not, List.length_eq_zero] at hlen
      simp [hlen]

theorem onRootTemplateEnd_eq (s : State) :
    onRootTemplateEnd s = (s, s.unusedProperties.map diagnosticOf) := by
  unfold onRootTemplateEnd
  split
  · rw [reportUnusedProperties_some]
  · rename_i hlen
    simp only [ne_eq, Decidable.not_not, List.length_eq_zero] at hlen
    simp [hlen]

theorem onVExpressionContainer_eq (s : State) (R : List String) :
    onVExpressionContainer s R =
      ({ s with unusedProperties := removeNames s.unusedProperties R }, []) := rfl

/-! ## Traversals -/

theorem run_nil (s : State) : run s [] = (s, []) := rfl

theorem run_cons (s : State) (e : Event) (es : List Event) :
    run s (e :: es) = ((run (step s e).1 es).1, (step s e).2 ++ (run (step s e).1 es).2) := rfl

theorem run_append (s : State) (es fs : List Event) :
    run s (es ++ fs) =
      ((run (run s es).1 fs).1, (run s es).2 ++ (run (run s es).1 fs).2) := by
  induction es generalizing s with
  | nil => simp [run_nil]
  | cons e es ih => simp [run_cons, ih, List.append_assoc]

/-- Every callback except the component callback leaves `unusedProperties` a sub-list of
what it was, and reports only properties that were in it. -/
theorem step_not_vue (s : State) (e : Event) (he : e.isVue = false) :
    (step s e).1.unusedProperties.Sublist s.unusedProperties ∧
      ∀ d ∈ (step s e).2, ∃ q ∈ s.unusedProperties, d = diagnosticOf q := by
  cases e with
  | program ok tb =>
    cases ok <;> simp [step, Program]
  | thisExpressionProperty name => simp [step, onThisExpressionProperty]
  | vue P W => simp [Event.isVue] at he
  | vExpressionContainer R =>
    simp only [step, onVExpressionContainer_eq]
    exact ⟨removeNames_sublist _ _, by simp⟩
  | rootTemplateEnd =>
    simp only [step, onRootTemplateEnd_eq]
    refine ⟨List.Sublist.refl _, ?_⟩
    intro d hd
    obtain ⟨q, hq, rfl⟩ := List.mem_map.mp hd
    exact ⟨q, hq, rfl⟩

theorem run_not_vue (s : State) (es : List Event) (hes : ∀ e ∈ es, e.isVue = false) :
    (run s es).1.unusedProperties.Sublist s.unusedProperties ∧
      ∀ d ∈ (run s es).2, ∃ q ∈ s.unusedProperties, d = diagnosticOf q := by
  induction es generalizing s with
  | nil => simp [run_nil]
  | cons e es ih =>
    have h1 := step_not_vue s e (hes e (List.mem_cons_self _ _))
    have h2 := ih (step s e).1 (fun x hx => hes x (List.mem_cons_of_mem _ hx))
    rw [run_cons]
    refine ⟨h2.1.trans h1.1, ?_⟩
    intro d hd
    rcases List.mem_append.mp hd with hd | hd
    · exact h1.2 d hd
    · obtain ⟨q, hq, rfl⟩ := h2.2 d hd
      exact ⟨q, h1.1.subset hq, rfl⟩

/-- Only the component callback and template-root-end report anything. -/
theorem step_quiet (s : State) (e : Event) (h1 : e.isVue = false)
    (h2 : e.isRootTemplateEnd = false) : (step s e).2 = [] := by
  cases e with
  | program ok tb => cases ok <;> simp [step, Program]
  | thisExpressionProperty name => rfl
  | vue P W => simp [Event.isVue] at h1
  | vExpressionContainer R => rfl
  | rootTemplateEnd => simp [Event.isRootTemplateEnd] at h2

theorem run_quiet (s : State) (es : List Event)
    (hes : ∀ e ∈ es, e.isVue = false ∧ e.isRootTemplateEnd = false) : (run s es).2 = [] := by
  induction es generalizing s with
  | nil => rfl
  | cons e es ih =>
    rw [run_cons, ih _ (fun x hx => hes x (List.mem_cons_of_mem _ hx))]
    simp [step_quiet s e (hes e (List.mem_cons_self _ _)).1 (hes e (List.mem_cons_self _ _)).2]

/-- The template fragments in a row: nothing is reported and the unused list loses
exactly the properties whose name occurs in one of the reference-name lists. -/
theorem run_fragments (s : State) (Rs : List (List String)) :
    run s (Rs.map Event.vExpressionContainer) =
      ({ s with unusedProperties :=
          s.unusedProperties.filter (fun p => decide (∀ R ∈ Rs, p.name ∉ R)) }, []) := by
  induction Rs generalizing s with
  | nil => simp [run_nil]
  | cons R Rs ih =>
    simp only [List.map_cons, run_cons, step, onVExpressionContainer_eq, ih,
      removeNames_eq_filter, List.filter_filter, List.nil_append]
    congr 2
    apply List.filter_congr
    intro p _
    simp only [List.forall_mem_cons, Bool.decide_and]
    exact Bool.and_comm _ _

/-- The self-reference callbacks in a row: the names are appended in order. -/
theorem run_thisExpressions (s : State) (S : List String) :
    run s (S.map Event.thisExpressionProperty) =
      ({ s with thisExpressionsVariablesNames := s.thisExpressionsVariablesNames ++ S }, []) := by
  induction S generalizing s with
  | nil => simp [run_nil]
  | cons n S ih =>
    simp [run_cons, step, onThisExpressionProperty, ih, List.append_assoc]

/-- Once no unused property is called `n`, no later callback other than the component
callback reports a property called `n`. -/
theorem run_not_vue_name (s : State) (es : List Event) (n : String)
    (hes : ∀ e ∈ es, e.isVue = false) (hn : ∀ q ∈ s.unusedProperties, q.name ≠ n) :
    ∀ q : Property, q.name = n → diagnosticOf q ∉ (run s es).2 := by
  intro q hq hmem
  obtain ⟨q2, hq2, heq⟩ := (run_not_vue s es hes).2 _ hmem
  have := diagnosticOf_injective heq
  subst this
  exact hn q hq2 hq

theorem onVue_name (s : State) (P : List Property) (W : List String) (n : String)
    (hn : n ∈ s.thisExpressionsVariablesNames ∨ n ∈ W) :
    ∀ q ∈ (onVue s P W).1.unusedProperties, q.name ≠ n := by
  intro q hq hqn
  rw [onVue_unused, List.mem_filter] at hq
  have h := of_decide_eq_true hq.2
  subst hqn
  rcases hn with hn | hn
  · exact h.1 hn
  · exact h.2 hn

/-- The component callback of a file without template reports at once. -/
theorem onVue_out_noTemplate (s : State) (P : List Property) (W : List String)
    (h : truthy s.hasTemplate = false) :
    (onVue s P W).2 =
      (P.filter (fun p => decide (p.name ∉ s.thisExpressionsVariablesNames ∧
        p.name ∉ W))).map diagnosticOf := by
  rw [onVue_out, onVue_unused, h]
  simp

/-- The component callback of a file with a template reports nothing. -/
theorem onVue_out_template (s : State) (P : List Property) (W : List String)
    (h : truthy s.hasTemplate = true) : (onVue s P W).2 = [] := by
  rw [onVue_out, h]
  simp

/-- The state in which template-root-end fires after a component callback and the
template fragments. -/
theorem run_vue_fragments_unused (s : State) (P : List Property) (W : List String)
    (Rs : List (List String)) :
    (run s (Event.vue P W :: Rs.map Event.vExpressionContainer)).1.unusedProperties =
      P.filter (fun p => decide (p.name ∉ s.thisExpressionsVariablesNames ∧ p.name ∉ W ∧
        ∀ R ∈ Rs, p.name ∉ R)) := by
  rw [run_cons, run_fragments]
  simp only [step, onVue_unused, List.filter_filter]
  apply List.filter_congr
  intro p _
  by_cases h1 : p.name ∈ s.thisExpressionsVariablesNames <;>
    by_cases h2 : p.name ∈ W <;> simp [h1, h2]

theorem run_vue_fragments_out (s : State) (P : List Property) (W : List String)
    (Rs : List (List String)) (h : truthy s.hasTemplate = true) :
    (run s (Event.vue P W :: Rs.map Event.vExpressionContainer)).2 = [] := by
  rw [run_cons, run_fragments]
  simp [step, onVue_out_template s P W h]

/-- The script part of a traversal leaves the template flag and the self-reference
names in the closure and reports nothing. -/
theorem run_script (tb : Bool) (S : List String) (rest : List Event) :
    run State.init (Event.program true tb :: S.map Event.thisExpressionProperty ++ rest) =
      run { hasTemplate := some tb, unusedProperties := [],
            thisExpressionsVariablesNames := S } rest := by
  rw [List.cons_append, run_cons, run_append, run_thisExpressions]
  simp [step, Program, State.init]

/-- The diagnostics of a whole traversal in callback order. -/
theorem run_analysisRun (tb : Bool) (S : List String) (P : List Property)
    (W : List String) (Rs : List (List String)) :
    (run State.init (analysisRun tb S P W Rs)).2 =
      (P.filter (fun p => decide (p.name ∉ S ∧ p.name ∉ W ∧
        (tb = true → ∀ R ∈ Rs, p.name ∉ R)))).map diagnosticOf := by
  unfold analysisRun
  rw [List.append_assoc, run_script]
  cases tb with
  | false =>
    simp only [Bool.false_eq_true, if_false, List.append_nil, run_cons, run_nil, step]
    rw [onVue_out_noTemplate _ _ _ (by rfl)]
    simp
  | true =>
    simp only [if_true, List.singleton_append]
    rw [← List.cons_append, run_append, run_vue_fragments_out _ _ _ _ (by rfl), run_cons,
      run_nil]
    simp only [step, onRootTemplateEnd_eq, run_vue_fragments_unused]
    simp

theorem mem_observedNames_analysisRun (tb : Bool) (S : List String) (P : List Property)
    (W : List String) (Rs : List (List String)) (n : String) :
    n ∈ observedNames (analysisRun tb S P W Rs) ↔
      n ∈ S ∨ n ∈ W ∨ (tb = true ∧ ∃ R ∈ Rs, n ∈ R) := by
  have hS : ∀ (S : List String) (es : List Event),
      observedNames (S.map Event.thisExpressionProperty ++ es) = S ++ observedNames es := by
    intro S es
    induction S with
    | nil => rfl
    | cons a S ih => simp [observedNames, ih]
  have hR : ∀ (Rs : List (List String)),
      n ∈ observedNames (Rs.map Event.vExpressionContainer ++ [Event.rootTemplateEnd]) ↔
        ∃ R ∈ Rs, n ∈ R := by
    intro Rs
    induction Rs with
    | nil => simp [observedNames]
    | cons R Rs ih => simp [observedNames, ih]
  have hrun : analysisRun tb S P W Rs =
      Event.program true tb :: (S.map Event.thisExpressionProperty ++
        (Event.vue P W :: (if tb then Rs.map Event.vExpressionContainer ++
          [Event.rootTemplateEnd] else []))) := by
    simp [analysisRun]
  have h0 : ∀ es, observedNames (Event.program true tb :: es) = observedNames es :=
    fun _ => rfl
  have hv : ∀ es, observedNames (Event.vue P W :: es) = W ++ observedNames es :=
    fun _ => rfl
  rw [hrun, h0, hS, hv]
  cases tb with
  | false => simp [observedNames]
  | true => simp [hR]

/-- The template flag stays `true` under every callback except a `Program` that sees no
template. -/
theorem step_hasTemplate (s : State) (e : Event) (h : s.hasTemplate = some true)
    (he : e ≠ Event.program true false) : (step s e).1.hasTemplate = some true := by
  cases e with
  | program ok tb =>
    cases ok <;> cases tb <;> simp_all [step, Program]
  | thisExpressionProperty name => exact h
  | vue P W => exact h
  | vExpressionContainer R => exact h
  | rootTemplateEnd => exact h

/-- A name recorded before the component callback, or watched, is not reported from the
component callback on, whatever fires later short of another component callback. -/
theorem run_vue_name (s : State) (P : List Property) (W : List String)
    (post : List Event) (n : String) (hpost : ∀ e ∈ post, e.isVue = false)
    (hn : n ∈ s.thisExpressionsVariablesNames ∨ n ∈ W) :
    ∀ q : Property, q.name = n → diagnosticOf q ∉ (run s (Event.vue P W :: post)).2 := by
  intro q hq
  rw [run_cons]
  simp only [step, List.mem_append, not_or]
  have hu := onVue_name s P W n hn
  refine ⟨?_, run_not_vue_name _ post n hpost hu q hq⟩
  rw [onVue_out]
  split
  · simp
  · rw [mem_map_diagnosticOf]
    exact fun hmem => hu q hmem hq

/-! ## The claims -/

/-- C1 (as stated, for any sequence of callbacks) fails: in `lateSelfReferenceRun` the
member `a` is declared and its name is referenced by a self-reference access, yet the
run emits the diagnostic for `a`, because the access is recorded after the component
callback has consulted the recorded names. -/
theorem C1_counterexample :
    memberA ∈ declaredProperties lateSelfReferenceRun ∧
      memberA.name ∈ observedNames lateSelfReferenceRun ∧
      diagnosticOf memberA ∈ (run State.init lateSelfReferenceRun).2 := by
  decide

/-- C1 (amended): take any state `s` of the closure, a component callback with declared
members `P` and watcher names `W`, and any later callbacks `post` that are not component
callbacks.  If the name `n` is among the self-reference names recorded before the
component callback, or among `W`, or the template flag is true and `n` is among the
reference names of a template fragment in `post` with no template-root-end before it,
then no diagnostic emitted from the component callback on is the diagnostic of a member
called `n`. -/
theorem C1_referenced_member_not_reported (s : State) (P : List Property)
    (W : List String) (post : List Event) (n : String)
    (hpost : ∀ e ∈ post, e.isVue = false)
    (href : n ∈ s.thisExpressionsVariablesNames ∨ n ∈ W ∨
      (truthy s.hasTemplate = true ∧ ∃ mid R rest,
        post = mid ++ Event.vExpressionContainer R :: rest ∧ n ∈ R ∧
          ∀ e ∈ mid, e.isRootTemplateEnd = false)) :
    ∀ q : Property, q.name = n → diagnosticOf q ∉ (run s (Event.vue P W :: post)).2 := by
  intro q hq
  rcases href with h | h | ⟨ht, mid, R, rest, hsplit, hnR, hmid⟩
  · exact run_vue_name s P W post n hpost (Or.inl h) q hq
  · exact run_vue_name s P W post n hpost (Or.inr h) q hq
  · rw [run_cons]
    simp only [step, List.mem_append, not_or]
    refine ⟨by simp [onVue_out_template s P W ht], ?_⟩
    subst hsplit
    have hmidv : ∀ e ∈ mid, e.isVue = false := fun e he =>
      hpost e (List.mem_append_left _ he)
    have hrest : ∀ e ∈ rest, e.isVue = false := fun e he =>
      hpost e (List.mem_append_right _ (List.mem_cons_of_mem _ he))
    rw [run_append, run_quiet _ mid (fun e he => ⟨hmidv e he, hmid e he⟩), run_cons]
    simp only [step, onVExpressionContainer_eq, List.nil_append]
    apply run_not_vue_name _ rest n hrest _ q hq
    intro q2 hq2 hq2n
    rw [mem_removeNames] at hq2
    exact hq2.2 (hq2n ▸ hnR)

/-- C1 (amended), at a concrete input: with a template, members `a` and `c`, and a
fragment that references `a` before template-root-end, `a` is not reported. -/
theorem C1_referenced_member_not_reported_witness :
    diagnosticOf memberA ∉
      (run templateState (Event.vue [memberA, memberC] [] ::
        [Event.vExpressionContainer ["a"], Event.rootTemplateEnd])).2 :=
  C1_referenced_member_not_reported templateState [memberA, memberC] []
    [Event.vExpressionContainer ["a"], Event.rootTemplateEnd] "a"
    (by decide)
    (Or.inr (Or.inr ⟨rfl, [], ["a"], [Event.rootTemplateEnd], rfl, by decide, by decide⟩))
    memberA rfl

/-- C2: when the template flag is true, after the component callback (declared `P`,
watchers `W`, self-reference names `S` already recorded in the state) and the template
fragments `Rs`, nothing has been reported yet, and template-root-end reports exactly one
diagnostic per property of `P` whose name is in none of `S`, `W` and the lists of `Rs`,
in declaration order; these are all the diagnostics of that stretch of the run. -/
theorem C2_template_report (s : State) (h : s.hasTemplate = some true)
    (P : List Property) (W : List String) (Rs : List (List String)) :
    (run s (Event.vue P W :: Rs.map Event.vExpressionContainer)).2 = [] ∧
      (step (run s (Event.vue P W :: Rs.map Event.vExpressionContainer)).1
          Event.rootTemplateEnd).2 =
        (P.filter (fun p => decide (p.name ∉ s.thisExpressionsVariablesNames ∧ p.name ∉ W ∧
          ∀ R ∈ Rs, p.name ∉ R))).map diagnosticOf ∧
      (run s (Event.vue P W :: Rs.map Event.vExpressionContainer ++
          [Event.rootTemplateEnd])).2 =
        (P.filter (fun p => decide (p.name ∉ s.thisExpressionsVariablesNames ∧ p.name ∉ W ∧
          ∀ R ∈ Rs, p.name ∉ R))).map diagnosticOf := by
  have ht : truthy s.hasTemplate = true := by rw [h]; rfl
  have h1 := run_vue_fragments_out s P W Rs ht
  have h2 : (step (run s (Event.vue P W :: Rs.map Event.vExpressionContainer)).1
      Event.rootTemplateEnd).2 =
        (P.filter (fun p => decide (p.name ∉ s.thisExpressionsVariablesNames ∧ p.name ∉ W ∧
          ∀ R ∈ Rs, p.name ∉ R))).map diagnosticOf := by
    simp only [step, onRootTemplateEnd_eq, run_vue_fragments_unused]
  refine ⟨h1, h2, ?_⟩
  rw [run_append, h1, run_cons, run_nil, h2]
  simp

/-- C2, the stated example: members `a` (props), `b` (data), `c` (computed), `a` only in
a template interpolation, `b` only as a watcher, `c` nowhere: the run emits exactly one
diagnostic, the one for `c`. -/
theorem C2_template_report_witness :
    (run State.init [Event.program true true]).1.hasTemplate = some true ∧
      (run (run State.init [Event.program true true]).1
        (Event.vue [memberA, memberB, memberC] ["b"] ::
          [["a"]].map Event.vExpressionContainer ++ [Event.rootTemplateEnd])).2 =
        [diagnosticOf memberC] :=
  ⟨rfl, (C2_template_report (run State.init [Event.program true true]).1 rfl
    [memberA, memberB, memberC] ["b"] [["a"]]).2.2.trans (by decide)⟩

/-- C3: when the template flag is not true, the component callback itself (declared `P`,
watchers `W`, self-reference names `S` already recorded in the state) reports exactly
one diagnostic per property of `P` whose name is neither in `S` nor in `W`, in
declaration order; no template-root-end event is involved. -/
theorem C3_script_only_report (s : State) (h : truthy s.hasTemplate = false)
    (P : List Property) (W : List String) :
    (step s (Event.vue P W)).2 =
        (P.filter (fun p => decide (p.name ∉ s.thisExpressionsVariablesNames ∧
          p.name ∉ W))).map diagnosticOf ∧
      (run s [Event.vue P W]).2 =
        (P.filter (fun p => decide (p.name ∉ s.thisExpressionsVariablesNames ∧
          p.name ∉ W))).map diagnosticOf := by
  have h1 := onVue_out_noTemplate s P W h
  refine ⟨h1, ?_⟩
  rw [run_cons, run_nil]
  simpa [step] using h1

/-- C3, the stated example: members `a` (props) and `b` (data), the script accesses
`this.a`, no watcher, no template: the component callback emits exactly one diagnostic,
the one for `b`. -/
theorem C3_script_only_report_witness :
    truthy (run State.init [Event.program true false,
        Event.thisExpressionProperty "a"]).1.hasTemplate = false ∧
      (run (run State.init [Event.program true false,
        Event.thisExpressionProperty "a"]).1 [Event.vue [memberA, memberB] []]).2 =
        [diagnosticOf memberB] :=
  ⟨rfl, (C3_script_only_report (run State.init [Event.program true false,
    Event.thisExpressionProperty "a"]).1 rfl [memberA, memberB] []).2.trans (by decide)⟩

/-- C4: while the template flag is true, no callback other than template-root-end emits
a diagnostic (Program, self-reference, component declaration and template fragment emit
none), so a run of such callbacks, none of them a `Program` that clears the flag, emits
nothing before template-root-end. -/
theorem C4_only_root_end_reports (s : State) (h : s.hasTemplate = some true) :
    (∀ e : Event, e.isRootTemplateEnd = false → (step s e).2 = []) ∧
      (∀ es : List Event,
        (∀ e ∈ es, e.isRootTemplateEnd = false ∧ e ≠ Event.program true false) →
          (run s es).2 = []) := by
  have hstep : ∀ (s : State), s.hasTemplate = some true → ∀ e : Event,
      e.isRootTemplateEnd = false → (step s e).2 = [] := by
    intro s h e he
    cases e with
    | program ok tb => cases ok <;> rfl
    | thisExpressionProperty name => rfl
    | vue P W => exact onVue_out_template s P W (by rw [h]; rfl)
    | vExpressionContainer R => rfl
    | rootTemplateEnd => simp [Event.isRootTemplateEnd] at he
  refine ⟨hstep s h, ?_⟩
  intro es
  induction es generalizing s with
  | nil => intro _; rfl
  | cons e es ih =>
    intro hes
    have he := hes e (List.mem_cons_self _ _)
    rw [run_cons, hstep s h e he.1,
      ih (step s e).1 (step_hasTemplate s e h he.2)
        (fun x hx => hes x (List.mem_cons_of_mem _ hx))]
    rfl

/-- C4, at a concrete input: with a template, `Program`, a self-reference access, the
component callback declaring the unreferenced member `c` and a template fragment emit
nothing. -/
theorem C4_only_root_end_reports_witness :
    templateState.hasTemplate = some true ∧
      (run templateState [Event.program true true, Event.thisExpressionProperty "a",
        Event.vue [memberA, memberC] [], Event.vExpressionContainer ["b"]]).2 = [] :=
  ⟨rfl, (C4_only_root_end_reports templateState rfl).2 _ (by decide)⟩

/-- In the traversal of one component in which every self-reference access precedes
the component callback (`analysisRun`), every declared property is reported at most as
often as it is declared, every diagnostic is the diagnostic of a declared property, and
a property is reported only when its name was observed nowhere in the run. -/
theorem analysisRun_reported_at_most_once (tb : Bool) (S : List String)
    (P : List Property) (W : List String) (Rs : List (List String)) :
    (∀ p : Property,
        (run State.init (analysisRun tb S P W Rs)).2.count (diagnosticOf p) ≤ P.count p) ∧
      (∀ d ∈ (run State.init (analysisRun tb S P W Rs)).2, ∃ p ∈ P, d = diagnosticOf p) ∧
      (∀ p : Property, diagnosticOf p ∈ (run State.init (analysisRun tb S P W Rs)).2 →
        p ∈ P ∧ p.name ∉ observedNames (analysisRun tb S P W Rs)) := by
  rw [run_analysisRun]
  refine ⟨?_, ?_, ?_⟩
  · intro p
    rw [List.count_map_of_injective _ _ diagnosticOf_injective]
    exact (List.filter_sublist P).count_le p
  · intro d hd
    obtain ⟨p, hp, rfl⟩ := List.mem_map.mp hd
    exact ⟨p, (List.mem_filter.mp hp).1, rfl⟩
  · intro p hp
    rw [mem_map_diagnosticOf, List.mem_filter] at hp
    have h := of_decide_eq_true hp.2
    refine ⟨hp.1, ?_⟩
    rw [mem_observedNames_analysisRun]
    rintro (h1 | h1 | ⟨htb, R, hR, hn⟩)
    · exact h.1 h1
    · exact h.2.1 h1
    · exact h.2.2 htb R hR hn

/-- Self-reference accesses and template fragments in any order report nothing, and the
unused list loses exactly the properties whose name is referenced by one of the
fragments; the self-reference accesses remove nothing. -/
theorem run_late (s : State) (post : List Event)
    (h : ∀ e ∈ post, e.isThisExpressionProperty = true ∨ e.isVExpressionContainer = true) :
    (run s post).2 = [] ∧
      (run s post).1.unusedProperties =
        s.unusedProperties.filter
          (fun p => decide (∀ R ∈ fragmentReferences post, p.name ∉ R)) := by
  induction post generalizing s with
  | nil => simp [run_nil, fragmentReferences]
  | cons e post ih =>
    have hrest := ih (step s e).1 (fun x hx => h x (List.mem_cons_of_mem _ hx))
    have he := h e (List.mem_cons_self _ _)
    rw [run_cons]
    cases e with
    | program ok tb => simp [Event.isThisExpressionProperty, Event.isVExpressionContainer] at he
    | vue P W => simp [Event.isThisExpressionProperty, Event.isVExpressionContainer] at he
    | rootTemplateEnd =>
      simp [Event.isThisExpressionProperty, Event.isVExpressionContainer] at he
    | thisExpressionProperty n =>
      refine ⟨by rw [hrest.1]; rfl, ?_⟩
      rw [hrest.2]
      rfl
    | vExpressionContainer R =>
      refine ⟨by rw [hrest.1]; rfl, ?_⟩
      rw [hrest.2]
      simp only [step, onVExpressionContainer_eq, removeNames_eq_filter, List.filter_filter,
        fragmentReferences]
      apply List.filter_congr
      intro p _
      simp only [List.forall_mem_cons, Bool.decide_and]
      exact Bool.and_comm _ _

/-- Without a template the later callbacks are self-reference accesses only, so the
traversal has no fragment. -/
theorem fragmentReferences_of_script (post : List Event)
    (h : ∀ e ∈ post, lateEvent false e = true) : fragmentReferences post = [] := by
  induction post with
  | nil => rfl
  | cons e post ih =>
    have he := h e (List.mem_cons_self _ _)
    have hrest := ih (fun x hx => h x (List.mem_cons_of_mem _ hx))
    cases e <;> simp_all [lateEvent, fragmentReferences, Event.isThisExpressionProperty,
      Event.isVExpressionContainer]

/-- The diagnostics of the traversal of one component, late self-reference accesses
included: the declared properties whose name is neither a self-reference name recorded
before the component callback, nor a watcher name, nor referenced by a fragment. -/
theorem run_componentRun (tb : Bool) (S : List String) (P : List Property)
    (W : List String) (post : List Event) (hpost : ∀ e ∈ post, lateEvent tb e = true) :
    (run State.init (componentRun tb S P W post)).2 =
      (P.filter (fun p => decide (p.name ∉ S ∧ p.name ∉ W ∧
        ∀ R ∈ fragmentReferences post, p.name ∉ R))).map diagnosticOf := by
  have hlate : ∀ e ∈ post,
      e.isThisExpressionProperty = true ∨ e.isVExpressionContainer = true := by
    intro e he
    have h := hpost e he
    simp only [lateEvent, Bool.or_eq_true, Bool.and_eq_true] at h
    rcases h with h | h
    · exact Or.inl h
    · exact Or.inr h.2
  have hshape : componentRun tb S P W post =
      Event.program true tb :: S.map Event.thisExpressionProperty ++
        (Event.vue P W :: (post ++ (if tb then [Event.rootTemplateEnd] else []))) := by
    simp [componentRun]
  have hsplit : ∀ (s0 : State) (tail : List Event),
      (run s0 (Event.vue P W :: (post ++ tail))).2 =
        (onVue s0 P W).2 ++ (run (run (onVue s0 P W).1 post).1 tail).2 := by
    intro s0 tail
    have hl := run_late (onVue s0 P W).1 post hlate
    simp only [run_cons, run_append, step, hl.1, List.nil_append]
  rw [hshape, run_script, hsplit]
  cases tb with
  | false =>
    have hfr := fragmentReferences_of_script post hpost
    simp only [Bool.false_eq_true, if_false, run_nil, List.append_nil]
    rw [onVue_out_noTemplate _ _ _ (by rfl), hfr]
    simp
  | true =>
    have hl := run_late (onVue (State.mk (some true) [] S) P W).1 post hlate
    simp only [if_true, run_cons, run_nil, step, onRootTemplateEnd_eq, List.append_nil,
      hl.2]
    rw [onVue_out_template _ _ _ (by rfl), List.nil_append, onVue_unused,
      List.filter_filter]
    congr 1
    apply List.filter_congr
    intro p _
    by_cases h1 : p.name ∈ S <;> by_cases h2 : p.name ∈ W <;> simp [h1, h2]

/-- The traversal with every self-reference access before the component callback is
the general traversal of one component with only the fragments after the callback. -/
theorem analysisRun_eq_componentRun (tb : Bool) (S : List String) (P : List Property)
    (W : List String) (Rs : List (List String)) :
    analysisRun tb S P W Rs =
      componentRun tb S P W (if tb then Rs.map Event.vExpressionContainer else []) := by
  cases tb <;> simp [analysisRun, componentRun]

/-- C5 (as stated, for every analysis run of one component) fails: `lateAccessRun` has
exactly one component callback, `a` is declared in it, the name `a` is observed in the
run as a self-reference name, and yet the run reports `a`; the access is visited after
the component callback, which is the only place where the recorded names are read. -/
theorem C5_counterexample :
    (lateAccessRun.filter Event.isVue).length = 1 ∧
      memberA ∈ declaredProperties lateAccessRun ∧
      memberA.name ∈ observedNames lateAccessRun ∧
      diagnosticOf memberA ∈ (run State.init lateAccessRun).2 := by
  decide

/-- C5 (amended): in every traversal of one component (`Program`, the self-reference
accesses before the component callback, the component callback, then further
self-reference accesses and, with a template, template fragments in any order, then
template-root-end when there is a template), every declared property is reported at
most as often as it is declared (once for a property declared once), every diagnostic is
the diagnostic of a declared property, and a property is reported exactly when its name
is neither a self-reference name recorded before the component callback, nor a watcher
name, nor a reference name of a template fragment of the run. -/
theorem C5_reported_at_most_once (tb : Bool) (S : List String) (P : List Property)
    (W : List String) (post : List Event) (hpost : ∀ e ∈ post, lateEvent tb e = true) :
    (∀ p : Property,
        (run State.init (componentRun tb S P W post)).2.count (diagnosticOf p) ≤
          P.count p) ∧
      (∀ d ∈ (run State.init (componentRun tb S P W post)).2, ∃ p ∈ P, d = diagnosticOf p) ∧
      (∀ p : Property, diagnosticOf p ∈ (run State.init (componentRun tb S P W post)).2 ↔
        p ∈ P ∧ p.name ∉ S ∧ p.name ∉ W ∧
          ∀ R ∈ fragmentReferences post, p.name ∉ R) := by
  rw [run_componentRun tb S P W post hpost]
  refine ⟨?_, ?_, ?_⟩
  · intro p
    rw [List.count_map_of_injective _ _ diagnosticOf_injective]
    exact (List.filter_sublist P).count_le p
  · intro d hd
    obtain ⟨p, hp, rfl⟩ := List.mem_map.mp hd
    exact ⟨p, (List.mem_filter.mp hp).1, rfl⟩
  · intro p
    rw [mem_map_diagnosticOf, List.mem_filter, decide_eq_true_eq]

/-- C5 (amended), at a concrete input: in `lateAccessRun` the member `a` is reported at
most once and the member `b`, accessed through `this` before the component callback, is
not reported. -/
theorem C5_reported_at_most_once_witness :
    (run State.init lateAccessRun).2.count (diagnosticOf memberA) ≤ 1 ∧
      diagnosticOf memberB ∉ (run State.init lateAccessRun).2 :=
  ⟨((C5_reported_at_most_once true ["b"] [memberA, memberB] []
      [Event.vExpressionContainer ["x"], Event.thisExpressionProperty "a"]
      (by decide)).1 memberA).trans (by decide),
    fun h => (((C5_reported_at_most_once true ["b"] [memberA, memberB] []
      [Event.vExpressionContainer ["x"], Event.thisExpressionProperty "a"]
      (by decide)).2.2 memberB).mp h).2.1 (by decide)⟩

/-- C6: a member whose name is among the watcher names returned for the component is
taken out of the unused list by the component callback and is reported neither by that
callback nor by any later callback that is not a component callback, whatever the
template flag and the other references are. -/
theorem C6_watched_member_not_reported (s : State) (P : List Property)
    (W : List String) (post : List Event) (p : Property)
    (hpost : ∀ e ∈ post, e.isVue = false) (hw : p.name ∈ W) :
    p ∉ (step s (Event.vue P W)).1.unusedProperties ∧
      diagnosticOf p ∉ (run s (Event.vue P W :: post)).2 :=
  ⟨fun hmem => onVue_name s P W p.name (Or.inr hw) p hmem rfl,
    run_vue_name s P W post p.name hpost (Or.inr hw) p rfl⟩

/-- C6, at a concrete input: member `b` is only watched; it is reported neither in a
file with a template nor in one without. -/
theorem C6_watched_member_not_reported_witness :
    diagnosticOf memberB ∉ (run templateState (Event.vue [memberB, memberC] ["b"] ::
        [Event.vExpressionContainer ["x"], Event.rootTemplateEnd])).2 ∧
      diagnosticOf memberB ∉ (run State.init (Event.vue [memberB, memberC] ["b"] :: [])).2 :=
  ⟨(C6_watched_member_not_reported templateState [memberB, memberC] ["b"]
      [Event.vExpressionContainer ["x"], Event.rootTemplateEnd] memberB
      (by decide) (by decide)).2,
    (C6_watched_member_not_reported State.init [memberB, memberC] ["b"] [] memberB
      (by decide) (by decide)).2⟩

/-- C7 (as stated) fails on the watcher names the spec describes (the keys of the watch
block): with the single watch key `a.b` the member `a` stays in the unused list after
the component callback, and it is reported, at once without a template and at
template-root-end with one. -/
theorem C7_counterexample :
    memberA ∈ (step State.init
        (Event.vue [memberA] (getWatchersNames (some ["a.b"])))).1.unusedProperties ∧
      (run State.init [Event.program true false,
        Event.vue [memberA] (getWatchersNames (some ["a.b"]))]).2 = [diagnosticOf memberA] ∧
      (run State.init [Event.program true true,
        Event.vue [memberA] (getWatchersNames (some ["a.b"])),
        Event.rootTemplateEnd]).2 = [diagnosticOf memberA] := by
  decide

/-- C7 (amended): a watch entry counts as usage of the member whose name equals its key.
After the component callback a declared property is still unused exactly when its name
is neither a recorded self-reference name nor one of the watch keys; a property whose
name is one of the keys is not reported by that callback or any later callback that is
not a component callback. -/
theorem C7_watch_key_exact_match (s : State) (P : List Property) (keys : List String)
    (post : List Event) (p : Property) (hpost : ∀ e ∈ post, e.isVue = false) :
    (p ∈ (step s (Event.vue P (getWatchersNames (some keys)))).1.unusedProperties ↔
        p ∈ P ∧ p.name ∉ s.thisExpressionsVariablesNames ∧ p.name ∉ keys) ∧
      (p.name ∈ keys →
        diagnosticOf p ∉ (run s (Event.vue P (getWatchersNames (some keys)) :: post)).2) := by
  refine ⟨?_, fun hk => run_vue_name s P _ post p.name hpost (Or.inr hk) p rfl⟩
  simp only [step, onVue_unused, getWatchersNames, List.mem_filter, decide_eq_true_eq]

/-- C7 (amended), at a concrete input: with the watch key `a` the member `a` leaves the
unused list and is not reported at template-root-end. -/
theorem C7_watch_key_exact_match_witness :
    memberA ∉ (step templateState
        (Event.vue [memberA] (getWatchersNames (some ["a"])))).1.unusedProperties ∧
      diagnosticOf memberA ∉ (run templateState
        (Event.vue [memberA] (getWatchersNames (some ["a"])) :: [Event.rootTemplateEnd])).2 :=
  ⟨fun h => ((C7_watch_key_exact_match templateState [memberA] ["a"]
      [Event.rootTemplateEnd] memberA (by decide)).1.mp h).2.2 (by decide),
    (C7_watch_key_exact_match templateState [memberA] ["a"]
      [Event.rootTemplateEnd] memberA (by decide)).2 (by decide)⟩

/-- C8: `remove` with the predicate `names.includes(property.name)` keeps exactly the
properties whose name equals no element of `names`, in their original order, and returns
the others; a property of any group goes when its name is in `names`; when no property
name is in `names` the list is unchanged.  The match is on the whole string and
case-sensitive: `A` and `ab` do not remove `a`, while `a` removes the members called
`a` of both groups.  The script-phase predicate (two `includes` joined by `||`) is the
same removal for the two name lists together. -/
theorem C8_remove_by_exact_name (U : List Property) (names : List String) :
    (remove U (fun property => includes names property.name)).1 =
        U.filter (fun p => decide (p.name ∉ names)) ∧
      (remove U (fun property => includes names property.name)).2 =
        U.filter (fun p => decide (p.name ∈ names)) ∧
      (∀ p : Property, p ∈ (remove U (fun property => includes names property.name)).1 ↔
        p ∈ U ∧ p.name ∉ names) ∧
      (remove U (fun property => includes names property.name)).1.Sublist U ∧
      ((∀ p ∈ U, p.name ∉ names) →
        (remove U (fun property => includes names property.name)).1 = U) ∧
      (∀ more : List String,
        (remove U (fun property => includes names property.name ||
          includes more property.name)).1 = removeNames U (names ++ more)) ∧
      (remove [memberA, memberB] (fun property => includes ["A"] property.name)).1 =
        [memberA, memberB] ∧
      (remove [memberA, memberB] (fun property => includes ["ab"] property.name)).1 =
        [memberA, memberB] ∧
      (remove [memberA, memberB, memberA2, memberC]
        (fun property => includes ["a"] property.name)).1 = [memberB, memberC] := by
  have h1 := removeNames_eq_filter U names
  unfold removeNames at h1
  refine ⟨h1, ?_, ?_, ?_, ?_, ?_, by decide, by decide, by decide⟩
  · rw [remove_snd_eq_filter]
    apply List.filter_congr
    intro p _
    by_cases h : p.name ∈ names <;> simp [includes, h]
  · intro p
    exact mem_removeNames U names p
  · exact removeNames_sublist U names
  · intro hno
    rw [h1, List.filter_eq_self]
    intro p hp
    exact decide_eq_true (hno p hp)
  · intro more
    rw [remove_fst_eq_filter, removeNames_eq_filter]
    apply List.filter_congr
    intro p _
    by_cases h : p.name ∈ names <;> by_cases h2 : p.name ∈ more <;> simp [includes, h, h2]

/-- C8, at a concrete input: names that match no property leave the list as it is. -/
theorem C8_remove_by_exact_name_witness :
    (remove [memberA, memberB] (fun property => includes ["x", "y"] property.name)).1 =
      [memberA, memberB] :=
  (C8_remove_by_exact_name [memberA, memberB] ["x", "y"]).2.2.2.2.1 (by decide)

/-- C9: the component callback sets the unused list to a sub-list of the declared
properties; every callback that is not the component callback leaves the unused list a
sub-list of its value before the call; hence after the component callback and any
number of such callbacks the unused list is a sub-list, and so a subset, of the declared
properties. -/
theorem C9_unused_monotone (s : State) :
    (∀ (P : List Property) (W : List String),
        (step s (Event.vue P W)).1.unusedProperties.Sublist P) ∧
      (∀ e : Event, e.isVue = false →
        (step s e).1.unusedProperties.Sublist s.unusedProperties) ∧
      (∀ (P : List Property) (W : List String) (post : List Event),
        (∀ e ∈ post, e.isVue = false) →
          (run s (Event.vue P W :: post)).1.unusedProperties.Sublist P ∧
            ∀ p ∈ (run s (Event.vue P W :: post)).1.unusedProperties, p ∈ P) := by
  have hv : ∀ (P : List Property) (W : List String),
      (step s (Event.vue P W)).1.unusedProperties.Sublist P := by
    intro P W
    simp only [step, onVue_unused]
    exact List.filter_sublist P
  refine ⟨hv, fun e he => (step_not_vue s e he).1, ?_⟩
  intro P W post hpost
  have hsub : (run s (Event.vue P W :: post)).1.unusedProperties.Sublist P := by
    rw [run_cons]
    exact (run_not_vue _ post hpost).1.trans (hv P W)
  exact ⟨hsub, fun p hp => hsub.subset hp⟩

/-- C9, at a concrete input: after the component callback, a fragment, a late
self-reference and template-root-end, the unused list is a sub-list of the declared
members. -/
theorem C9_unused_monotone_witness :
    (run templateState (Event.vue [memberA, memberB, memberC] [] ::
      [Event.vExpressionContainer ["a"], Event.thisExpressionProperty "b",
        Event.rootTemplateEnd])).1.unusedProperties.Sublist [memberA, memberB, memberC] :=
  ((C9_unused_monotone templateState).2.2 [memberA, memberB, memberC] []
    [Event.vExpressionContainer ["a"], Event.thisExpressionProperty "b",
      Event.rootTemplateEnd] (by decide)).1

/-- C10: removing the names `A` and then the names `B` from the unused list gives the
same list as removing once any list `C` that holds exactly the names of `A` and `B`
(their union), in particular `A ++ B`; removing `A` twice equals removing it once; and
two template fragments in a row leave the closure as one fragment with both name lists
does. -/
theorem C10_remove_idempotent (U : List Property) (A B : List String) :
    (∀ C : List String, (∀ n, n ∈ C ↔ n ∈ A ∨ n ∈ B) →
        removeNames (removeNames U A) B = removeNames U C) ∧
      removeNames (removeNames U A) B = removeNames U (A ++ B) ∧
      removeNames (removeNames U A) A = removeNames U A ∧
      (∀ s : State,
        (run s [Event.vExpressionContainer A, Event.vExpressionContainer B]).1 =
          (run s [Event.vExpressionContainer (A ++ B)]).1) := by
  have hC : ∀ C : List String, (∀ n, n ∈ C ↔ n ∈ A ∨ n ∈ B) →
      removeNames (removeNames U A) B = removeNames U C := by
    intro C hC
    simp only [removeNames_eq_filter, List.filter_filter]
    apply List.filter_congr
    intro p _
    by_cases h1 : p.name ∈ A <;> by_cases h2 : p.name ∈ B <;> simp [hC, h1, h2]
  have hAB : ∀ U : List Property,
      removeNames (removeNames U A) B = removeNames U (A ++ B) := by
    intro U
    simp only [removeNames_eq_filter, List.filter_filter]
    apply List.filter_congr
    intro p _
    by_cases h1 : p.name ∈ A <;> by_cases h2 : p.name ∈ B <;> simp [h1, h2]
  refine ⟨hC, hAB U, ?_, ?_⟩
  · simp only [removeNames_eq_filter, List.filter_filter]
    apply List.filter_congr
    intro p _
    by_cases h1 : p.name ∈ A <;> simp [h1]
  · intro s
    simp only [run_cons, run_nil, step, onVExpressionContainer_eq, hAB]

/-- C10, at a concrete input: removing `a`, `b` and then `b`, `c` equals removing
`a`, `b`, `c` once. -/
theorem C10_remove_idempotent_witness :
    removeNames (removeNames [memberA, memberB, memberC, memberA2] ["a", "b"]) ["b", "c"] =
      removeNames [memberA, memberB, memberC, memberA2] ["c", "b", "a"] :=
  (C10_remove_idempotent [memberA, memberB, memberC, memberA2] ["a", "b"] ["b", "c"]).1
    ["c", "b", "a"] (by
      intro n
      simp only [List.mem_cons, List.mem_singleton, List.not_mem_nil, or_false]
      tauto)

/-! ## Further facts used by the later claims -/

/-- Callbacks other than the component callback read nothing but the unused list: from
two closures with the same unused list they report the same and leave the same list. -/
theorem run_congr_unused (s1 s2 : State) (es : List Event)
    (hes : ∀ e ∈ es, e.isVue = false) (h : s1.unusedProperties = s2.unusedProperties) :
    (run s1 es).2 = (run s2 es).2 ∧
      (run s1 es).1.unusedProperties = (run s2 es).1.unusedProperties := by
  induction es generalizing s1 s2 with
  | nil => exact ⟨rfl, h⟩
  | cons e es ih =>
    have hstep : (step s1 e).2 = (step s2 e).2 ∧
        (step s1 e).1.unusedProperties = (step s2 e).1.unusedProperties := by
      cases e with
      | program ok tb => cases ok <;> exact ⟨rfl, h⟩
      | thisExpressionProperty name => exact ⟨rfl, h⟩
      | vue P W => simpa [Event.isVue] using hes (Event.vue P W) (List.mem_cons_self _ _)
      | vExpressionContainer R =>
        refine ⟨rfl, ?_⟩
        simp only [step, onVExpressionContainer_eq, h]
      | rootTemplateEnd =>
        refine ⟨?_, h⟩
        simp only [step, onRootTemplateEnd_eq, h]
    have hrest := ih (step s1 e).1 (step s2 e).1
      (fun x hx => hes x (List.mem_cons_of_mem _ hx)) hstep.2
    rw [run_cons, run_cons]
    exact ⟨by rw [hstep.1, hrest.1], hrest.2⟩

/-- With an empty unused list and only memberless component callbacks, nothing is
reported and the unused list stays empty. -/
theorem run_no_members (s : State) (es : List Event) (hs : s.unusedProperties = [])
    (h : ∀ e ∈ es, ∀ P W, e = Event.vue P W → P = []) :
    (run s es).2 = [] ∧ (run s es).1.unusedProperties = [] := by
  induction es generalizing s with
  | nil => exact ⟨rfl, hs⟩
  | cons e es ih =>
    have hstep : (step s e).2 = [] ∧ (step s e).1.unusedProperties = [] := by
      cases e with
      | program ok tb => cases ok <;> exact ⟨rfl, hs⟩
      | thisExpressionProperty name => exact ⟨rfl, hs⟩
      | vue P W =>
        have hP : P = [] := h (Event.vue P W) (List.mem_cons_self _ _) P W rfl
        subst hP
        have hu : (onVue s [] W).1.unusedProperties = [] := by rw [onVue_unused]; rfl
        refine ⟨?_, hu⟩
        show (onVue s [] W).2 = []
        rw [onVue_out, hu]
        simp
      | vExpressionContainer R =>
        refine ⟨rfl, ?_⟩
        simp only [step, onVExpressionContainer_eq, hs]
        rfl
      | rootTemplateEnd =>
        refine ⟨?_, hs⟩
        simp only [step, onRootTemplateEnd_eq, hs]
        rfl
    have hrest := ih (step s e).1 hstep.2 (fun x hx => h x (List.mem_cons_of_mem _ hx))
    rw [run_cons, hstep.1, hrest.1]
    exact ⟨rfl, hrest.2⟩

/-! ## The claims, continued -/

/-- C11: the order of the template fragments is irrelevant.  For every closure state
(the script-phase result) and every two orderings of the same fragment callbacks, the
closure after the fragments is the same, and so are the diagnostics of the fragments
followed by template-root-end, order included. -/
theorem C11_fragment_order_irrelevant (s : State) (Rs Rs2 : List (List String))
    (h : Rs.Perm Rs2) :
    (run s (Rs.map Event.vExpressionContainer)).1 =
        (run s (Rs2.map Event.vExpressionContainer)).1 ∧
      (run s (Rs.map Event.vExpressionContainer ++ [Event.rootTemplateEnd])).2 =
        (run s (Rs2.map Event.vExpressionContainer ++ [Event.rootTemplateEnd])).2 := by
  have hstate : (run s (Rs.map Event.vExpressionContainer)).1 =
      (run s (Rs2.map Event.vExpressionContainer)).1 := by
    rw [run_fragments, run_fragments]
    have hf : s.unusedProperties.filter (fun p => decide (∀ R ∈ Rs, p.name ∉ R)) =
        s.unusedProperties.filter (fun p => decide (∀ R ∈ Rs2, p.name ∉ R)) := by
      apply List.filter_congr
      intro p _
      simp only [h.mem_iff]
    simp only [hf]
  refine ⟨hstate, ?_⟩
  rw [run_append, run_append, hstate]
  simp only [run_fragments]

/-- C11, at a concrete input: after a component callback declaring `a`, `b`, `c`, the
fragments referencing `a` and `b` give the same diagnostics in either order. -/
theorem C11_fragment_order_irrelevant_witness :
    (run (step templateState (Event.vue [memberA, memberB, memberC] [])).1
        ([["a"], ["b"]].map Event.vExpressionContainer ++ [Event.rootTemplateEnd])).2 =
      (run (step templateState (Event.vue [memberA, memberB, memberC] [])).1
        ([["b"], ["a"]].map Event.vExpressionContainer ++ [Event.rootTemplateEnd])).2 :=
  (C11_fragment_order_irrelevant
    (step templateState (Event.vue [memberA, memberB, memberC] [])).1
    [["a"], ["b"]] [["b"], ["a"]] (List.Perm.swap _ _ _)).2

/-- C12: when every component callback of a run declares no member, the run emits no
diagnostic, whatever the self-reference names, the watcher names, the template flag and
the template fragments are; in particular the traversal of one component with an empty
member list emits none. -/
theorem C12_no_members_no_diagnostics (es : List Event)
    (h : ∀ e ∈ es, ∀ P W, e = Event.vue P W → P = []) :
    (run State.init es).2 = [] ∧
      ∀ (tb : Bool) (S W : List String) (Rs : List (List String)),
        (run State.init (analysisRun tb S [] W Rs)).2 = [] := by
  refine ⟨(run_no_members State.init es rfl h).1, ?_⟩
  intro tb S W Rs
  rw [run_analysisRun]
  rfl

/-- C12, at a concrete input: no member, a self-reference, a watcher and a fragment,
with a template: nothing is reported. -/
theorem C12_no_members_no_diagnostics_witness :
    (run State.init [Event.program true true, Event.thisExpressionProperty "a",
      Event.vue [] ["b"], Event.vExpressionContainer ["c"], Event.rootTemplateEnd]).2 = [] :=
  (C12_no_members_no_diagnostics _ (by
    intro e he P W hv
    subst hv
    simp only [List.mem_cons, List.mem_singleton, List.not_mem_nil, or_false] at he
    rcases he with he | he | he | he | he <;> simp_all)).1

/-- C13: `reportUnusedProperties` is a projection of its argument.  For every list it
emits exactly one diagnostic per element, in order, whose node is the node of the
property and whose message is `Unused <label> found: "<name>"`, the label being
`property` for `props`, `data` for `data` and `computed property` for `computed`; the
three labels are pairwise distinct, so the message of a computed member is never the
message of a prop or of a data field; nothing is emitted for an empty or an absent list;
and the callback that reports at template-root-end leaves the closure, unused list
included, as it was. -/
theorem C13_report_is_projection :
    (∀ ps : List Property,
        reportUnusedProperties (some ps) =
          ps.map (fun p => Diagnostic.mk p.node
            ("Unused " ++ PROPERTY_LABEL p.groupName ++ " found: \"" ++ p.name ++ "\"")) ∧
        (reportUnusedProperties (some ps)).length = ps.length) ∧
      (PROPERTY_LABEL GROUP_PROPERTY = "property" ∧ PROPERTY_LABEL GROUP_DATA = "data" ∧
        PROPERTY_LABEL GROUP_COMPUTED_PROPERTY = "computed property") ∧
      (∀ g h : GroupName, PROPERTY_LABEL g = PROPERTY_LABEL h → g = h) ∧
      (∀ (name : String) (node : Nat),
        diagnosticOf { name := name, groupName := GROUP_PROPERTY, node := node } =
            { node := node, message := "Unused property found: \"" ++ name ++ "\"" } ∧
          diagnosticOf { name := name, groupName := GROUP_DATA, node := node } =
            { node := node, message := "Unused data found: \"" ++ name ++ "\"" } ∧
          diagnosticOf { name := name, groupName := GROUP_COMPUTED_PROPERTY, node := node } =
            { node := node,
              message := "Unused computed property found: \"" ++ name ++ "\"" }) ∧
      (∀ p q : Property, p.groupName = GROUP_COMPUTED_PROPERTY →
        q.groupName ≠ GROUP_COMPUTED_PROPERTY → unusedMessage p ≠ unusedMessage q) ∧
      (reportUnusedProperties none = [] ∧ reportUnusedProperties (some []) = []) ∧
      (∀ s : State, (step s Event.rootTemplateEnd).1 = s) := by
  refine ⟨?_, ⟨rfl, rfl, rfl⟩, ?_, ?_, ?_, ⟨rfl, rfl⟩, fun s => rfl⟩
  · intro ps
    rw [reportUnusedProperties_some]
    exact ⟨rfl, List.length_map _ _⟩
  · intro g h
    cases g <;> cases h <;> simp [PROPERTY_LABEL]
  · intro name node
    refine ⟨?_, ?_, ?_⟩ <;>
      simp only [diagnosticOf, unusedMessage, PROPERTY_LABEL, GROUP_PROPERTY, GROUP_DATA,
        GROUP_COMPUTED_PROPERTY, Diagnostic.mk.injEq, true_and] <;>
      apply String.ext <;>
      simp [String.data_append]
  · intro p q hp hq heq
    have h := (unusedMessage_inj p q heq).1
    exact hq (h ▸ hp)

/-- C13, at a concrete input: the diagnostic for the computed member `c`. -/
theorem C13_report_is_projection_witness :
    reportUnusedProperties (some [memberC]) =
      [{ node := 3, message := "Unused computed property found: \"c\"" }] := by
  rw [(C13_report_is_projection.1 [memberC]).1]
  decide

/-- From a component callback on, and up to the next one, every diagnostic is the
diagnostic of a property that callback declared. -/
theorem run_vue_from_declared (s : State) (P : List Property) (W : List String)
    (post : List Event) (hpost : ∀ e ∈ post, e.isVue = false) :
    ∀ d ∈ (run s (Event.vue P W :: post)).2, ∃ q ∈ P, d = diagnosticOf q := by
  have hsub : (onVue s P W).1.unusedProperties.Sublist P := by
    rw [onVue_unused]
    exact List.filter_sublist P
  intro d hd
  rw [run_cons] at hd
  rcases List.mem_append.mp hd with hd | hd
  · simp only [step] at hd
    rw [onVue_out] at hd
    split at hd
    · simp at hd
    · obtain ⟨q, hq, rfl⟩ := List.mem_map.mp hd
      exact ⟨q, hsub.subset hq, rfl⟩
  · obtain ⟨q, hq, rfl⟩ := (run_not_vue _ post hpost).2 d hd
    exact ⟨q, hsub.subset hq, rfl⟩

/-- C14: a self-reference access that fires after the component callback is appended to
`thisExpressionsVariablesNames` but changes neither the unused list nor what the
callbacks up to the next component callback report.  So with a template, a declared
member that is accessed through `this` only after the component callback, and is in no
watcher and no template expression, is still reported at template-root-end; the run
`Program`, component `a`, `this.a`, root end reports `a`. -/
theorem C14_late_self_reference_ignored :
    (∀ (s : State) (n : String),
        (step s (Event.thisExpressionProperty n)).1.unusedProperties = s.unusedProperties ∧
          (step s (Event.thisExpressionProperty n)).1.thisExpressionsVariablesNames =
            s.thisExpressionsVariablesNames ++ [n] ∧
          (step s (Event.thisExpressionProperty n)).2 = []) ∧
      (∀ (s : State) (n : String) (post : List Event), (∀ e ∈ post, e.isVue = false) →
        (run s (Event.thisExpressionProperty n :: post)).2 = (run s post).2 ∧
          (run s (Event.thisExpressionProperty n :: post)).1.unusedProperties =
            (run s post).1.unusedProperties) ∧
      (∀ (s : State) (P : List Property) (W : List String) (p : Property),
        s.hasTemplate = some true → p ∈ P → p.name ∉ s.thisExpressionsVariablesNames →
          p.name ∉ W →
            diagnosticOf p ∈ (run s [Event.vue P W, Event.thisExpressionProperty p.name,
              Event.rootTemplateEnd]).2) ∧
      (run State.init [Event.program true true, Event.vue [memberA] [],
        Event.thisExpressionProperty "a", Event.rootTemplateEnd]).2 =
          [diagnosticOf memberA] := by
  have h2 : ∀ (s : State) (n : String) (post : List Event), (∀ e ∈ post, e.isVue = false) →
      (run s (Event.thisExpressionProperty n :: post)).2 = (run s post).2 ∧
        (run s (Event.thisExpressionProperty n :: post)).1.unusedProperties =
          (run s post).1.unusedProperties := by
    intro s n post hpost
    have h := run_congr_unused (step s (Event.thisExpressionProperty n)).1 s post hpost rfl
    rw [run_cons]
    exact ⟨by simpa [step, onThisExpressionProperty] using h.1, h.2⟩
  refine ⟨fun s n => ⟨rfl, rfl, rfl⟩, h2, ?_, by decide⟩
  intro s P W p ht hp hthis hw
  have htr : truthy s.hasTemplate = true := by rw [ht]; rfl
  have e1 : (run s [Event.vue P W, Event.thisExpressionProperty p.name,
      Event.rootTemplateEnd]).2 =
      (step s (Event.vue P W)).2 ++ (run (step s (Event.vue P W)).1
        (Event.thisExpressionProperty p.name :: [Event.rootTemplateEnd])).2 := rfl
  have e2 : ∀ t : State, (run t [Event.rootTemplateEnd]).2 =
      t.unusedProperties.map diagnosticOf := by
    intro t
    rw [run_cons, run_nil]
    simp [step, onRootTemplateEnd_eq]
  rw [e1, (h2 _ p.name [Event.rootTemplateEnd] (by decide)).1, e2]
  simp only [step, onVue_out_template s P W htr, onVue_unused, List.nil_append]
  rw [mem_map_diagnosticOf, List.mem_filter]
  exact ⟨hp, decide_eq_true ⟨hthis, hw⟩⟩

/-- C14, at a concrete input: with a template, member `b` is declared, accessed through
`this` only after the component callback, and reported at template-root-end. -/
theorem C14_late_self_reference_ignored_witness :
    diagnosticOf memberB ∈ (run templateState [Event.vue [memberB] [],
      Event.thisExpressionProperty memberB.name, Event.rootTemplateEnd]).2 :=
  C14_late_self_reference_ignored.2.2.1 templateState [memberB] [] memberB rfl
    (by decide) (by decide) (by decide)

/-- C15: the component callback replaces the unused list, it does not merge: its result
does not depend on the unused list it finds.  With a template, when the component
callback fires with `P1`, then callbacks that are neither component callbacks nor
template-root-end, then the component callback with `P2`, then any callbacks that are
not component callbacks, every diagnostic of the run is the diagnostic of a property of
`P2`; a member whose name is not a name of `P2` is never reported; and two component
callbacks followed at once by template-root-end report exactly the unreferenced
properties of `P2`. -/
theorem C15_component_callback_replaces (s : State) (h : s.hasTemplate = some true)
    (P1 P2 : List Property) (W1 W2 : List String) (mid post : List Event)
    (hmid : ∀ e ∈ mid, e.isVue = false ∧ e.isRootTemplateEnd = false)
    (hpost : ∀ e ∈ post, e.isVue = false) :
    (∀ U : List Property,
        step { s with unusedProperties := U } (Event.vue P2 W2) = step s (Event.vue P2 W2)) ∧
      (∀ d ∈ (run s (Event.vue P1 W1 :: mid ++ Event.vue P2 W2 :: post)).2,
        ∃ q ∈ P2, d = diagnosticOf q) ∧
      (∀ p : Property, p.name ∉ P2.map Property.name →
        diagnosticOf p ∉ (run s (Event.vue P1 W1 :: mid ++ Event.vue P2 W2 :: post)).2) ∧
      (run s [Event.vue P1 W1, Event.vue P2 W2, Event.rootTemplateEnd]).2 =
        (P2.filter (fun p => decide (p.name ∉ s.thisExpressionsVariablesNames ∧
          p.name ∉ W2))).map diagnosticOf := by
  have htr : truthy s.hasTemplate = true := by rw [h]; rfl
  have hall : ∀ d ∈ (run s (Event.vue P1 W1 :: mid ++ Event.vue P2 W2 :: post)).2,
      ∃ q ∈ P2, d = diagnosticOf q := by
    intro d hd
    rw [List.cons_append, run_cons] at hd
    simp only [step, onVue_out_template s P1 W1 htr, List.nil_append] at hd
    rw [run_append, run_quiet _ mid hmid, List.nil_append] at hd
    exact run_vue_from_declared _ P2 W2 post hpost d hd
  refine ⟨fun U => rfl, hall, ?_, ?_⟩
  · intro p hp hmem
    obtain ⟨q, hq, heq⟩ := hall _ hmem
    have := diagnosticOf_injective heq
    subst this
    exact hp (List.mem_map_of_mem _ hq)
  · have htr1 : truthy (onVue s P1 W1).1.hasTemplate = true := htr
    simp only [run_cons, run_nil, step, onVue_out_template s P1 W1 htr,
      onVue_out_template _ P2 W2 htr1, onRootTemplateEnd_eq, onVue_unused,
      List.nil_append, List.append_nil]
    rfl

/-- C15, at a concrete input: the first component declares `a`, the second `b` and `c`
with `b` watched; only `c` is reported, the unreferenced `a` of the first is not. -/
theorem C15_component_callback_replaces_witness :
    (run templateState [Event.vue [memberA] [], Event.vue [memberB, memberC] ["b"],
      Event.rootTemplateEnd]).2 = [diagnosticOf memberC] :=
  (C15_component_callback_replaces templateState rfl [memberA] [memberB, memberC] [] ["b"]
    [] [] (by decide) (by decide)).2.2.2.trans (by decide)

end VueNoUnusedProperties

namespace ImportCSV

/-! ## Facts about `checkTaskStatus` -/

/-- With a truthy `taskId` the result is decided by the first task with that id. -/
theorem checkTaskStatus_truthy (statuses : TaskStatuses) (newTasks : List Task)
    (taskType : String) (id : String) (commitStart commitFinish : String)
    (hid : truthyId (some id) = true) :
    checkTaskStatus statuses newTasks taskType (some id) commitStart commitFinish =
      match newTasks.find? (fun task => decide (task.id = id)) with
      | some task =>
        if task.status = statuses.COMPLETED then
          [{ mutation := commitFinish, payload := Payload.task task }]
        else if task.status = statuses.FAILED then
          [{ mutation := "SET_FAILED", payload := Payload.task task }]
        else []
      | none => [] := by
  have hpred : (fun task : Task => some task.id == some id) =
      (fun task : Task => decide (task.id = id)) := by
    funext task
    by_cases h : task.id = id <;> simp [h]
  simp only [checkTaskStatus, hid, if_true, hpred]
  cases newTasks.find? (fun task => decide (task.id = id)) with
  | none => rfl
  | some task => simp only [beq_iff_eq]

/-- With a falsy `taskId` the result is decided by the first running task of the type. -/
theorem checkTaskStatus_falsy (statuses : TaskStatuses) (newTasks : List Task)
    (taskType : String) (taskId : Option String) (commitStart commitFinish : String)
    (hid : truthyId taskId = false) :
    checkTaskStatus statuses newTasks taskType taskId commitStart commitFinish =
      match newTasks.find? (fun task => decide (task.type = taskType ∧
          task.status ≠ statuses.COMPLETED ∧ task.status ≠ statuses.FAILED)) with
      | some task => [{ mutation := commitStart, payload := Payload.task task }]
      | none => [] := by
  have hpred : (fun task : Task => task.type == taskType &&
      task.status != statuses.COMPLETED && task.status != statuses.FAILED) =
      (fun task : Task => decide (task.type = taskType ∧
        task.status ≠ statuses.COMPLETED ∧ task.status ≠ statuses.FAILED)) := by
    funext task
    by_cases h1 : task.type = taskType <;>
      by_cases h2 : task.status = statuses.COMPLETED <;>
      by_cases h3 : task.status = statuses.FAILED <;> simp [h1, h2, h3]
  simp only [checkTaskStatus, hid, Bool.false_eq_true, if_false, hpred]
  rw [← List.filter_head?]
  cases List.filter (fun task => decide (task.type = taskType ∧
      task.status ≠ statuses.COMPLETED ∧ task.status ≠ statuses.FAILED)) newTasks with
  | nil => rfl
  | cons first rest => simp

/-! ## The claims about the store actions -/

/-- C16: `checkTaskStatus` commits at most one mutation per call.  With a truthy
`taskId` it looks at the first task of `newTasks` whose id equals `taskId`: it commits
`commitFinish` with that task when its status is COMPLETED, `SET_FAILED` with that task
when its status is FAILED, and nothing when there is no such task or its status is
another one; when `commitStart` is a different mutation name, no commit of the call
carries it.  With a falsy `taskId` it commits `commitStart` with the first task of
`newTasks` whose type equals `taskType` and whose status is neither COMPLETED nor
FAILED, and nothing when there is none.  The two status constants are distinct. -/
theorem C16_checkTaskStatus_commits (statuses : TaskStatuses)
    (hdistinct : statuses.COMPLETED ≠ statuses.FAILED) (newTasks : List Task)
    (taskType : String) (taskId : Option String) (commitStart commitFinish : String) :
    (checkTaskStatus statuses newTasks taskType taskId commitStart commitFinish).length ≤ 1 ∧
      (∀ id : String, taskId = some id → truthyId taskId = true →
        (∀ task : Task, newTasks.find? (fun t => decide (t.id = id)) = some task →
          task.status = statuses.COMPLETED →
            checkTaskStatus statuses newTasks taskType taskId commitStart commitFinish =
              [{ mutation := commitFinish, payload := Payload.task task }]) ∧
        (∀ task : Task, newTasks.find? (fun t => decide (t.id = id)) = some task →
          task.status = statuses.FAILED →
            checkTaskStatus statuses newTasks taskType taskId commitStart commitFinish =
              [{ mutation := "SET_FAILED", payload := Payload.task task }]) ∧
        (∀ task : Task, newTasks.find? (fun t => decide (t.id = id)) = some task →
          task.status ≠ statuses.COMPLETED → task.status ≠ statuses.FAILED →
            checkTaskStatus statuses newTasks taskType taskId commitStart commitFinish = []) ∧
        (newTasks.find? (fun t => decide (t.id = id)) = none →
          checkTaskStatus statuses newTasks taskType taskId commitStart commitFinish = []) ∧
        (commitStart ≠ commitFinish → commitStart ≠ "SET_FAILED" →
          ∀ c ∈ checkTaskStatus statuses newTasks taskType taskId commitStart commitFinish,
            c.mutation ≠ commitStart)) ∧
      (truthyId taskId = false →
        checkTaskStatus statuses newTasks taskType taskId commitStart commitFinish =
          match newTasks.find? (fun t => decide (t.type = taskType ∧
              t.status ≠ statuses.COMPLETED ∧ t.status ≠ statuses.FAILED)) with
          | some task => [{ mutation := commitStart, payload := Payload.task task }]
          | none => []) := by
  refine ⟨?_, ?_, fun hid => checkTaskStatus_falsy statuses newTasks taskType taskId
    commitStart commitFinish hid⟩
  · cases hid : truthyId taskId with
    | false =>
      rw [checkTaskStatus_falsy statuses newTasks taskType taskId commitStart commitFinish hid]
      split <;> simp
    | true =>
      cases taskId with
      | none => simp [truthyId] at hid
      | some id =>
        rw [checkTaskStatus_truthy statuses newTasks taskType id commitStart commitFinish hid]
        split
        · split
          · simp
          · split <;> simp
        · simp
  · intro id hsome hid
    subst hsome
    rw [checkTaskStatus_truthy statuses newTasks taskType id commitStart commitFinish hid]
    refine ⟨?_, ?_, ?_, ?_, ?_⟩
    · intro task hfind hst
      rw [hfind]
      simp [hst]
    · intro task hfind hst
      have hne2 : ¬ statuses.FAILED = statuses.COMPLETED := fun h => hdistinct h.symm
      rw [hfind]
      simp only [hst, hne2, if_false, if_true]
    · intro task hfind h1 h2
      rw [hfind]
      simp [h1, h2]
    · intro hfind
      rw [hfind]
    · intro h1 h2 c hc
      split at hc
      · split at hc
        · simp only [List.mem_singleton] at hc
          subst hc
          exact fun h => h1 h.symm
        · split at hc
          · simp only [List.mem_singleton] at hc
            subst hc
            exact fun h => h2 h.symm
          · simp at hc
      · simp at hc

/-- C16, at a concrete input: among `sampleTasks`, with no task id yet, the start
mutation is committed with the first running import task, `t3`; with the task id `t1`,
whose task is completed, the finish mutation is committed with that task. -/
theorem C16_checkTaskStatus_commits_witness :
    taskStatuses.COMPLETED ≠ taskStatuses.FAILED ∧
      checkTaskStatus taskStatuses sampleTasks "IMPORTUSERSFROMCSV" none
        "START_VALIDATE_USERS" "SET_FINISHED_IMPORT_USERS" =
          [{ mutation := "START_VALIDATE_USERS",
             payload := Payload.task
               { id := "t3", type := "IMPORTUSERSFROMCSV", status := "RUNNING" } }] ∧
      checkTaskStatus taskStatuses sampleTasks "IMPORTUSERSFROMCSV" (some "t1")
        "START_VALIDATE_USERS" "SET_FINISHED_IMPORT_USERS" =
          [Commit.mk "SET_FINISHED_IMPORT_USERS"
            (Payload.task (Task.mk "t1" "IMPORTUSERSFROMCSV" "COMPLETED"))] :=
  ⟨by decide, ((C16_checkTaskStatus_commits taskStatuses (by decide) sampleTasks
    "IMPORTUSERSFROMCSV" none "START_VALIDATE_USERS" "SET_FINISHED_IMPORT_USERS").2.2
      rfl).trans (by decide),
    ((C16_checkTaskStatus_commits taskStatuses (by decide) sampleTasks
      "IMPORTUSERSFROMCSV" (some "t1") "START_VALIDATE_USERS"
      "SET_FINISHED_IMPORT_USERS").2.1 "t1" rfl (by decide)).1
        (Task.mk "t1" "IMPORTUSERSFROMCSV" "COMPLETED") (by decide) (by decide)⟩

/-- C17: the request parameters and the guard of the two import actions.  The object
`params` has `csvfile` equal to the given file, the key `delete` with value `true`
exactly when the deleting flag is set, and the key `dryrun` with value `true` exactly
when validating.  When the getter `importingOrValidating` is falsy at the guard,
`startValidating` returns the promise of the import called with `dryrun` set and
`startSavingUsers` the promise of the import called without `dryrun`, each for its own
start mutation.  When the getter is truthy at the guard, the result is `undefined`,
no request is made and no start mutation is committed: the commit log of
`startSavingUsers` is unchanged and that of `startValidating` has gained only
`SET_DELETE_USERS`, which it commits before the guard reads the getter. -/
theorem C17_import_params_and_guard {σ : Type} (store : Store σ)
    (payload : ValidatePayload) :
    (∀ (file : String) (deleting validate : Bool),
        (importParams file deleting validate).csvfile = file ∧
          (importParams file deleting validate).delete =
            (if deleting then some "true" else none) ∧
          (importParams file deleting validate).dryrun =
            (if validate then some "true" else none)) ∧
      ((store.commit (Commit.mk "SET_DELETE_USERS"
            (Payload.flag payload.deleteUsers))).currentGetters.importingOrValidating
          = false →
        (startValidating store payload).2 =
          ImportResult.promise
            (Params.mk payload.file (if payload.deleteUsers then some "true" else none)
              (some "true")) "START_VALIDATE_USERS") ∧
      (store.currentGetters.importingOrValidating = false →
        (startSavingUsers store).2 =
          ImportResult.promise
            (Params.mk store.currentGetters.filename
              (if store.currentGetters.deleteUsers then some "true" else none) none)
            "START_SAVE_USERS") ∧
      ((store.commit (Commit.mk "SET_DELETE_USERS"
            (Payload.flag payload.deleteUsers))).currentGetters.importingOrValidating
          = true →
        (startValidating store payload).2 = ImportResult.undefined ∧
          (startValidating store payload).1.committed =
            store.committed ++
              [Commit.mk "SET_DELETE_USERS" (Payload.flag payload.deleteUsers)]) ∧
      (store.currentGetters.importingOrValidating = true →
        (startSavingUsers store).2 = ImportResult.undefined ∧
          (startSavingUsers store).1.committed = store.committed ∧
          (startSavingUsers store).1.state = store.state) ∧
      ((store.commit (Commit.mk "SET_DELETE_USERS"
            (Payload.flag payload.deleteUsers))).currentGetters.importingOrValidating
          = store.currentGetters.importingOrValidating →
        store.currentGetters.importingOrValidating = true →
          (startValidating store payload).2 = ImportResult.undefined) := by
  have hparams : ∀ (file : String) (deleting validate : Bool),
      (importParams file deleting validate).csvfile = file ∧
        (importParams file deleting validate).delete =
          (if deleting then some "true" else none) ∧
        (importParams file deleting validate).dryrun =
          (if validate then some "true" else none) := by
    intro file deleting validate
    cases deleting <;> cases validate <;> exact ⟨rfl, rfl, rfl⟩
  have hguard : ∀ (st : Store σ) (file : String) (deleting validate : Bool)
      (name : String), st.currentGetters.importingOrValidating = true →
        startImportUsers st file deleting validate name = (st, ImportResult.undefined) := by
    intro st file deleting validate name h
    simp [startImportUsers, h]
  have hopen : ∀ (st : Store σ) (file : String) (deleting validate : Bool)
      (name : String), st.currentGetters.importingOrValidating = false →
        startImportUsers st file deleting validate name =
          (st, ImportResult.promise (importParams file deleting validate) name) := by
    intro st file deleting validate name h
    simp [startImportUsers, h]
  refine ⟨hparams, ?_, ?_, ?_, ?_, ?_⟩
  · intro h
    simp only [startValidating, hopen _ _ _ _ _ h]
    cases payload.deleteUsers <;> rfl
  · intro h
    simp only [startSavingUsers, hopen _ _ _ _ _ h]
    cases store.currentGetters.deleteUsers <;> rfl
  · intro h
    have e := hguard _ payload.file payload.deleteUsers true "START_VALIDATE_USERS" h
    exact ⟨congrArg Prod.snd e, congrArg (fun r => r.1.committed) e⟩
  · intro h
    have e := hguard store store.currentGetters.filename store.currentGetters.deleteUsers
      false "START_SAVE_USERS" h
    exact ⟨congrArg Prod.snd e, congrArg (fun r => r.1.committed) e,
      congrArg (fun r => r.1.state) e⟩
  · intro hframe h
    simp only [startValidating, hguard _ _ _ _ _ (hframe.trans h)]

/-- C17, at a concrete input: on `sampleStore`, while an import is running
`startValidating` returns `undefined`; otherwise it requests a dry run with the
`delete` key set. -/
theorem C17_import_params_and_guard_witness :
    (startValidating (sampleStore true) { file := "new.csv", deleteUsers := true }).2 =
        ImportResult.undefined ∧
      (startValidating (sampleStore false) { file := "new.csv", deleteUsers := true }).2 =
        ImportResult.promise
          { csvfile := "new.csv", delete := some "true", dryrun := some "true" }
          "START_VALIDATE_USERS" :=
  ⟨((C17_import_params_and_guard (sampleStore true)
      { file := "new.csv", deleteUsers := true }).2.2.2.1 (by decide)).1,
    (C17_import_params_and_guard (sampleStore false)
      { file := "new.csv", deleteUsers := true }).2.1 (by decide)⟩

end ImportCSV
